import Mathlib

/-!
Verification of the request-canonicalization and signing subsystem of the
aliyun SMS client (package `sms`, helpers in package `message`).

Go strings are modelled as lists of byte values (`GoStr := List Nat`,
each entry intended `< 256`).  All protocol literals in the source are
ASCII, so the helper `gs` converts a Lean string literal to its byte
list via code points (identical to UTF-8 bytes on ASCII input).
-/

/-- A Go string, as its list of bytes. -/
abbrev GoStr : Type := List Nat

/-- Byte list of an ASCII Lean string literal (code points = bytes on ASCII). -/
def gs (s : String) : GoStr := s.data.map Char.toNat

/-!
## Percent-encoding layer

`QueryEscape` embeds Go's `url.QueryEscape` (mode `encodeQueryComponent`):
a byte is kept verbatim iff it is alphanumeric or one of `-` `_` `.` `~`
(RFC 3986 unreserved); a space becomes `+`; every other byte becomes
`%` followed by two uppercase hex digits.  `replaceAll` embeds
`strings.Replace(s, old, new, -1)`: leftmost non-overlapping occurrences,
scanning resumes after each inserted replacement.  `SpecialURLEncode`
embeds the source function of the same name.
-/

/-- Go `shouldEscape(c, encodeQueryComponent) == false`: the byte is emitted verbatim. -/
def unreservedB (b : Nat) : Bool :=
  (65 ≤ b && b ≤ 90) || (97 ≤ b && b ≤ 122) || (48 ≤ b && b ≤ 57) ||
    b == 45 || b == 95 || b == 46 || b == 126

/-- Go `upperhex[n]` for a nibble `n < 16` ("0123456789ABCDEF"). -/
def hexDigitChar (n : Nat) : Nat := if n < 10 then 48 + n else 55 + n

/-- Encoding of one byte by `url.QueryEscape`. -/
def escByte (b : Nat) : List Nat :=
  if unreservedB b then [b]
  else if b == 32 then [43]
  else [37, hexDigitChar (b / 16), hexDigitChar (b % 16)]

/-- Embedding of Go `url.QueryEscape`: the per-byte loop emits the
concatenation of the individual byte encodings. -/
def QueryEscape (s : GoStr) : GoStr := (s.map escByte).flatten

/-- Scanning loop of `strings.Replace`, with explicit fuel so that the
recursion is structural (any fuel at least `s.length` gives the same
result, see `replaceAllGo_fuel_irrel`). -/
def replaceAllGo : Nat → GoStr → GoStr → GoStr → GoStr
  | _, s, [], _ => s
  | _, [], _ :: _, _ => []
  | 0, s, _ :: _, _ => s
  | fuel + 1, a :: t, o :: os, new =>
    if (o :: os).isPrefixOf (a :: t) then
      new ++ replaceAllGo fuel (t.drop os.length) (o :: os) new
    else
      a :: replaceAllGo fuel t (o :: os) new

/-- Embedding of Go `strings.Replace(s, old, new, -1)`: replace the leftmost
non-overlapping occurrences of `old` by `new`, resuming the scan after each
replacement. -/
def replaceAll (s old new : GoStr) : GoStr := replaceAllGo s.length s old new

/-- Embedding of the source `SpecialURLEncode`: generic query escape, then
`+` to `%20`, `*` to `%2A`, `%7E` to `~`. -/
def SpecialURLEncode (s : GoStr) : GoStr :=
  replaceAll (replaceAll (replaceAll (QueryEscape s) (gs "+") (gs "%20"))
      (gs "*") (gs "%2A"))
    (gs "%7E") (gs "~")

/-- Per-byte encoder named by the spec (§4.2): generic escape with the three
corrections already folded in.  `SpecialURLEncode` is proved below to act
bytewise exactly like this function. -/
def specialEncByte (b : Nat) : List Nat :=
  if unreservedB b then [b]
  else if b == 32 then [37, 50, 48]
  else [37, hexDigitChar (b / 16), hexDigitChar (b % 16)]

/-- Substring test (byte-wise occurrence of `pat` inside `s`). -/
def hasSubstr (s pat : GoStr) : Bool :=
  match s, pat with
  | _, [] => true
  | [], _ :: _ => false
  | _ :: t, p :: ps => (p :: ps).isPrefixOf s || hasSubstr t (p :: ps)

/-!
## Parameter store and canonical query encoder

`Params` models the Go `map[string]string` parameter store as an
association list with unique keys (`setP` overwrites in place, Go map
semantics).  `SortedQueryStr` embeds `url.Values.Encode()` as called by
the source `SortedQueryStr` methods: one value per key, keys sorted by
Go's `sort.Strings` (raw byte-wise string order; on duplicate-free key
lists any comparison sort produces this unique sorted permutation, so an
insertion sort is a faithful model), each key and value escaped with
`url.QueryEscape` and written as `key=value` joined by `&` into a buffer
that prepends `&` before every pair except the first.
-/

/-- Parameter store: association list of key/value byte strings. -/
abbrev Params : Type := List (GoStr × GoStr)

/-- Go map assignment `m[k] = v`: overwrite in place, else append. -/
def setP : Params → GoStr → GoStr → Params
  | [], k, v => [(k, v)]
  | (k', v') :: rest, k, v =>
    if k' = k then (k, v) :: rest else (k', v') :: setP rest k v

/-- Go map lookup `m[k]` (first binding; keys are unique under `setP`). -/
def lookupP : Params → GoStr → Option GoStr
  | [], _ => none
  | (k', v') :: rest, k => if k' = k then some v' else lookupP rest k

/-- Value bound to `k` (`""` if absent; `Encode` only consults present keys). -/
def valueOf (ps : Params) (k : GoStr) : GoStr := (lookupP ps k).getD []

/-- Go string comparison `a <= b` (byte-wise lexicographic). -/
def lexLeB : GoStr → GoStr → Bool
  | [], _ => true
  | _ :: _, [] => false
  | a :: as, b :: bs => a < b || (a == b && lexLeB as bs)

/-- Strict byte-wise lexicographic order on Go strings. -/
def lexLtB (a b : GoStr) : Bool := lexLeB a b && !(a == b)

/-- The ordering relation used for `sort.Strings`. -/
def keyLe (a b : GoStr) : Prop := lexLeB a b = true

instance : DecidableRel keyLe := fun a b =>
  inferInstanceAs (Decidable (lexLeB a b = true))

/-- `sort.Strings(keys)` on the key list of the store. -/
def sortedKeys (ps : Params) : List GoStr :=
  List.insertionSort keyLe (ps.map Prod.fst)

/-- Buffer loop of `url.Values.Encode()`: `&` before every pair except into
an empty buffer, then `QueryEscape(k)`, `=`, `QueryEscape(v)`. -/
def encodePairs (ps : Params) : List GoStr → GoStr → GoStr
  | [], buf => buf
  | k :: rest, buf =>
    encodePairs ps rest
      ((if buf = [] then buf else buf ++ [38]) ++
        QueryEscape k ++ [61] ++ QueryEscape (valueOf ps k))

/-- Embedding of the source `SortedQueryStr` (via `url.Values.Encode()`). -/
def SortedQueryStr (ps : Params) : GoStr := encodePairs ps (sortedKeys ps) []

/-- `&`-join of already-encoded `key=value` pair strings. -/
def joinAmp : List GoStr → GoStr
  | [] => []
  | [x] => x
  | x :: y :: rest => x ++ [38] ++ joinAmp (y :: rest)

/-- Canonical query string as the spec's §4.2 describes it: every key and
value individually passed through the corrected escaper (`SpecialURLEncode`),
pairs sorted and joined.  This is the claim-side counterpart compared
against the source's `SortedQueryStr`. -/
def specialEscapedQueryStr (ps : Params) : GoStr :=
  joinAmp ((sortedKeys ps).map (fun k =>
    SpecialURLEncode k ++ [61] ++ SpecialURLEncode (valueOf ps k)))

/-- Claimed ordering property of the canonical query string: the pairs occur
in strictly ascending byte-wise order of their already-encoded keys. -/
def strictAscB : List GoStr → Bool
  | [] => true
  | [_] => true
  | x :: y :: rest => lexLtB x y && strictAscB (y :: rest)

/-!
## HMAC-SHA1 and base64 (crypto/hmac, crypto/sha1, encoding/base64)

Machine words are naturals reduced mod `2 ^ 32`; byte extraction uses
division and remainder.
-/

/-- Truncation to a 32-bit word. -/
def w32 (n : Nat) : Nat := n % 4294967296

/-- Left rotation of a 32-bit word by `k` bits (`k ≤ 32`). -/
def rotl (k x : Nat) : Nat :=
  w32 (x % 2 ^ (32 - k) * 2 ^ k + x / 2 ^ (32 - k))

/-- SHA-1 round constants. -/
def sha1K (i : Nat) : Nat :=
  if i < 20 then 1518500249
  else if i < 40 then 1859775393
  else if i < 60 then 2400959708
  else 3395469782

/-- SHA-1 round functions (`ch`, `parity`, `maj`, `parity`); the xor with
`2 ^ 32 - 1` is 32-bit complement. -/
def sha1F (i b c d : Nat) : Nat :=
  if i < 20 then (b &&& c) ||| ((b ^^^ 4294967295) &&& d)
  else if i < 40 then b ^^^ c ^^^ d
  else if i < 60 then (b &&& c) ||| (b &&& d) ||| (c &&& d)
  else b ^^^ c ^^^ d

/-- Big-endian 8-byte encoding of the bit length. -/
def be64 (n : Nat) : List Nat :=
  [n / 2 ^ 56 % 256, n / 2 ^ 48 % 256, n / 2 ^ 40 % 256, n / 2 ^ 32 % 256,
   n / 2 ^ 24 % 256, n / 2 ^ 16 % 256, n / 2 ^ 8 % 256, n % 256]

/-- SHA-1 message padding: `0x80`, zeros to 56 mod 64, 64-bit bit length. -/
def sha1Pad (msg : List Nat) : List Nat :=
  msg ++ [128] ++ List.replicate ((119 - msg.length % 64) % 64) 0 ++
    be64 (msg.length * 8)

/-- Big-endian 32-bit words of a 64-byte block. -/
def toWords : List Nat → List Nat
  | b0 :: b1 :: b2 :: b3 :: rest =>
    (b0 * 16777216 + b1 * 65536 + b2 * 256 + b3) :: toWords rest
  | _ => []

/-- One extension step of the SHA-1 message schedule. -/
def extendW (ws : List Nat) : Nat → List Nat
  | 0 => ws
  | n + 1 =>
    let ws' := extendW ws n
    let l := ws'.length
    ws' ++ [rotl 1 ((ws'.getD (l - 3) 0) ^^^ (ws'.getD (l - 8) 0) ^^^
      (ws'.getD (l - 14) 0) ^^^ (ws'.getD (l - 16) 0))]

/-- The 80-word message schedule of one block. -/
def schedule (block : List Nat) : List Nat := extendW (toWords block) 64

/-- One SHA-1 round on the five-word state. -/
def sha1Round (W : List Nat) (st : Nat × Nat × Nat × Nat × Nat) (i : Nat) :
    Nat × Nat × Nat × Nat × Nat :=
  match st with
  | (a, b, c, d, e) =>
    (w32 (rotl 5 a + sha1F i b c d + e + sha1K i + W.getD i 0), a, rotl 30 b, c, d)

/-- Compression of one 64-byte block into the running state. -/
def sha1Compress (h : Nat × Nat × Nat × Nat × Nat) (block : List Nat) :
    Nat × Nat × Nat × Nat × Nat :=
  match (List.range 80).foldl (sha1Round (schedule block)) h, h with
  | (a, b, c, d, e), (h0, h1, h2, h3, h4) =>
    (w32 (h0 + a), w32 (h1 + b), w32 (h2 + c), w32 (h3 + d), w32 (h4 + e))

/-- 64-byte chunking of the padded message (fuel = length, always enough). -/
def chunksGo : Nat → List Nat → List (List Nat)
  | _, [] => []
  | 0, _ :: _ => []
  | f + 1, a :: t => (a :: t).take 64 :: chunksGo f ((a :: t).drop 64)

def chunks64 (s : List Nat) : List (List Nat) := chunksGo s.length s

/-- SHA-1 initial state. -/
def sha1Init : Nat × Nat × Nat × Nat × Nat :=
  (1732584193, 4023233417, 2562383102, 271733878, 3285377520)

/-- Big-endian bytes of one 32-bit word. -/
def w32Bytes (w : Nat) : List Nat :=
  [w / 16777216 % 256, w / 65536 % 256, w / 256 % 256, w % 256]

/-- SHA-1 digest (20 bytes) of a byte string. -/
def sha1 (msg : List Nat) : List Nat :=
  match (chunks64 (sha1Pad msg)).foldl sha1Compress sha1Init with
  | (h0, h1, h2, h3, h4) =>
    w32Bytes h0 ++ w32Bytes h1 ++ w32Bytes h2 ++ w32Bytes h3 ++ w32Bytes h4

/-- Embedding of Go `hmac.New(sha1.New, key)` + `Write` + `Sum`:
keys longer than the 64-byte block are first hashed, then zero-padded;
inner pad byte `0x36`, outer pad byte `0x5c`. -/
def hmacSha1 (key msg : List Nat) : List Nat :=
  let k0 := if 64 < key.length then sha1 key else key
  let kPad := k0 ++ List.replicate (64 - k0.length) 0
  sha1 ((kPad.map (fun b => b ^^^ 92)) ++
    sha1 ((kPad.map (fun b => b ^^^ 54)) ++ msg))

/-- Character of one 6-bit value in the standard base64 alphabet. -/
def b64char (n : Nat) : Nat :=
  if n < 26 then 65 + n
  else if n < 52 then 97 + (n - 26)
  else if n < 62 then 48 + (n - 52)
  else if n == 62 then 43
  else 47

/-- Embedding of Go `base64.StdEncoding.EncodeToString`. -/
def base64Encode : List Nat → List Nat
  | [] => []
  | [b0] => [b64char (b0 / 4), b64char (b0 % 4 * 16), 61, 61]
  | [b0, b1] =>
    [b64char (b0 / 4), b64char (b0 % 4 * 16 + b1 / 16), b64char (b1 % 16 * 4), 61]
  | b0 :: b1 :: b2 :: rest =>
    b64char (b0 / 4) :: b64char (b0 % 4 * 16 + b1 / 16) ::
      b64char (b1 % 16 * 4 + b2 / 64) :: b64char (b2 % 64) :: base64Encode rest

/-!
## Signer (the two `SignedString` variants) and its spec-side pipeline
-/

/-- String-to-sign, shared by both source variants:
`"GET&" + url.QueryEscape("/") + "&" + SpecialURLEncode(SortedQueryStr())`. -/
def StringToSign (ps : Params) : GoStr :=
  gs "GET&" ++ QueryEscape (gs "/") ++ gs "&" ++
    SpecialURLEncode (SortedQueryStr ps)

/-- The `Client.SignedString` variant: base64 digest, then one corrected
escape pass. -/
def ClientSignedString (ps : Params) (secret : GoStr) : GoStr :=
  SpecialURLEncode (base64Encode (hmacSha1 (secret ++ gs "&") (StringToSign ps)))

/-- The `SMS.SignedString` variant: base64 digest, an extra generic
`url.QueryEscape` pass, then the corrected escape pass. -/
def SMSSignedString (ps : Params) (secret : GoStr) : GoStr :=
  SpecialURLEncode (QueryEscape
    (base64Encode (hmacSha1 (secret ++ gs "&") (StringToSign ps))))

/-- String-to-sign exactly as §4.3 words it: literal `GET`, literal `&`,
the percent-encoded resource path `%2F`, literal `&`, the canonical query
string re-escaped as one opaque value by the corrected escaper. -/
def stringToSignSpec (ps : Params) : GoStr :=
  gs "GET" ++ gs "&" ++ gs "%2F" ++ gs "&" ++
    SpecialURLEncode (SortedQueryStr ps)

/-- Signature pipeline exactly as §4.3 words it: HMAC-SHA1 keyed by the
secret with a literal `&` suffix over the string-to-sign, base64, then the
escaping corrections. -/
def signatureSpec (ps : Params) (secret : GoStr) : GoStr :=
  SpecialURLEncode (base64Encode
    (hmacSha1 (secret ++ gs "&") (stringToSignSpec ps)))

/-!
## Timestamps (`message.GenTimestamp` / `SetTimestamp`)

A Go `time.Time` already converted with `.UTC()` is modelled by its UTC
calendar components, which is what `Year()` .. `Second()` return after the
conversion.  `fmtPad` embeds `fmt.Sprintf` verb `%0wd` for naturals: the
decimal digits, left-padded with zeros to width `w` (wider numbers keep
all their digits).
-/

structure GoTime where
  year : Nat
  month : Nat
  day : Nat
  hour : Nat
  minute : Nat
  second : Nat

/-- Decimal digit characters, most significant first (fuel-driven loop). -/
def decDigitsGo : Nat → Nat → List Nat
  | 0, n => [48 + n % 10]
  | f + 1, n => if n < 10 then [48 + n] else decDigitsGo f (n / 10) ++ [48 + n % 10]

def decDigits (n : Nat) : List Nat := decDigitsGo n n

/-- `fmt.Sprintf` `%0wd` for a natural number. -/
def fmtPad (w n : Nat) : GoStr :=
  List.replicate (w - (decDigits n).length) 48 ++ decDigits n

/-- Embedding of `GenTimestamp` / `SetTimestamp`:
`%04d-%02d-%02dT%02d:%02d:%02dZ` over the UTC components. -/
def GenTimestamp (t : GoTime) : GoStr :=
  fmtPad 4 t.year ++ [45] ++ fmtPad 2 t.month ++ [45] ++ fmtPad 2 t.day ++
    [84] ++ fmtPad 2 t.hour ++ [58] ++ fmtPad 2 t.minute ++ [58] ++
    fmtPad 2 t.second ++ [90]

/-- Exactly `w` decimal digits of `n`, most significant first (the spec's
fixed-width zero-padded reading). -/
def digitsFixed : Nat → Nat → GoStr
  | 0, _ => []
  | w + 1, n => (48 + n / 10 ^ w % 10) :: digitsFixed w n

/-- Timestamp in the exact shape the spec states: `YYYY-MM-DDThh:mm:ssZ`,
each field zero-padded to its fixed width, literal `Z`. -/
def specTimestamp (t : GoTime) : GoStr :=
  digitsFixed 4 t.year ++ [45] ++ digitsFixed 2 t.month ++ [45] ++
    digitsFixed 2 t.day ++ [84] ++ digitsFixed 2 t.hour ++ [58] ++
    digitsFixed 2 t.minute ++ [58] ++ digitsFixed 2 t.second ++ [90]

/-!
## Request orchestrator (`Send`)

A `ParamOp` is the observable effect of one functional option: it sets one
key to one value (every exported helper of the package is of this shape;
`PackageParam` below enumerates exactly the exported helpers).  The
external collaborators (clock, nonce generator, HTTP transport, JSON
decoder) enter as explicit arguments, so the parameter pipeline itself is
the pure function `sendPrepare`.
-/

structure ParamOp where
  key : GoStr
  value : GoStr

def TimestampP (t : GoTime) : ParamOp := ⟨gs "Timestamp", GenTimestamp t⟩

def SignatureMethodP (m : GoStr) : ParamOp := ⟨gs "SignatureMethod", m⟩

def SignatureVersionP (v : GoStr) : ParamOp := ⟨gs "SignatureVersion", v⟩

def SignatureNonceP (n : GoStr) : ParamOp := ⟨gs "SignatureNonce", n⟩

def ActionP (a : GoStr) : ParamOp := ⟨gs "Action", a⟩

def VersionP (v : GoStr) : ParamOp := ⟨gs "Version", v⟩

def RegionIDP (i : GoStr) : ParamOp := ⟨gs "RegionId", i⟩

def OutIDP (i : GoStr) : ParamOp := ⟨gs "OutId", i⟩

/-- The exported `Param` helpers of the package (the only values of the
opaque `Param` type a caller can obtain). -/
inductive PackageParam where
  | timestampOpt (t : GoTime)
  | signatureMethodOpt (m : GoStr)
  | signatureVersionOpt (v : GoStr)
  | signatureNonceOpt (n : GoStr)
  | actionOpt (a : GoStr)
  | versionOpt (v : GoStr)
  | regionIDOpt (i : GoStr)
  | outIDOpt (i : GoStr)

def PackageParam.toOp : PackageParam → ParamOp
  | .timestampOpt t => TimestampP t
  | .signatureMethodOpt m => SignatureMethodP m
  | .signatureVersionOpt v => SignatureVersionP v
  | .signatureNonceOpt n => SignatureNonceP n
  | .actionOpt a => ActionP a
  | .versionOpt v => VersionP v
  | .regionIDOpt i => RegionIDP i
  | .outIDOpt i => OutIDP i

/-- `NewClient` / `New`: the store is seeded with the access key ID. -/
def NewClient (accessKeyID : GoStr) : Params := setP [] (gs "AccessKeyId") accessKeyID

/-- Step 2 of `Send`: run the caller-supplied options in order. -/
def applyParams (ps : Params) (ovs : List ParamOp) : Params :=
  ovs.foldl (fun st o => setP st o.key o.value) ps

/-- Embedding of `GenPhoneNumbersStr` / `SetPhoneNumbers`: comma-joined. -/
def GenPhoneNumbersStr : List GoStr → GoStr
  | [] => []
  | [n] => n
  | n :: m :: rest => n ++ [44] ++ GenPhoneNumbersStr (m :: rest)

/-- Step 1 of `Send`: the default common and business parameters, in source
order. -/
def seedDefaults (ps : Params) (nowT : GoTime) (uuid : GoStr) : Params :=
  setP (setP (setP (setP (setP (setP (setP (setP ps
    (gs "Timestamp") (GenTimestamp nowT))
    (gs "Format") (gs "JSON"))
    (gs "SignatureMethod") (gs "HMAC-SHA1"))
    (gs "SignatureVersion") (gs "1.0"))
    (gs "SignatureNonce") uuid)
    (gs "Action") (gs "SendSms"))
    (gs "Version") (gs "2017-05-25"))
    (gs "RegionId") (gs "cn-hangzhou")

/-- Step 3 of `Send`: the required business parameters, written last. -/
def setRequired (ps : Params) (nums : List GoStr)
    (signName templateCode templateParam : GoStr) : Params :=
  setP (setP (setP (setP ps
    (gs "PhoneNumbers") (GenPhoneNumbersStr nums))
    (gs "SignName") signName)
    (gs "TemplateCode") templateCode)
    (gs "TemplateParam") templateParam

/-- The parameter store as it stands when `SignedString` is invoked. -/
def sendPrepare (ps : Params) (nowT : GoTime) (uuid : GoStr)
    (ovs : List ParamOp) (nums : List GoStr)
    (signName templateCode templateParam : GoStr) : Params :=
  setRequired (applyParams (seedDefaults ps nowT uuid) ovs)
    nums signName templateCode templateParam

/-- Last override for key `k` among the options, if any. -/
def lastOv (ovs : List ParamOp) (k : GoStr) : Option GoStr :=
  match ovs with
  | [] => none
  | o :: rest =>
    match lastOv rest k with
    | some v => some v
    | none => if o.key = k then some o.value else none

/-- The raw query assembled by `Send`:
`fmt.Sprintf("Signature=%s&%s", sign, sortedQueryStr)` with the
`SMS.SignedString` signature. -/
def sendRawQuery (ps : Params) (secret : GoStr) : GoStr :=
  gs "Signature=" ++ SMSSignedString ps secret ++ [38] ++ SortedQueryStr ps

/-!
## Response classification and error propagation of `Send`
-/

structure GoResponse where
  requestID : GoStr
  code : GoStr
  message : GoStr
  bizID : GoStr

abbrev GoErr : Type := GoStr

/-- ASCII uppercase of one byte. -/
def upperByte (b : Nat) : Nat := if 97 ≤ b && b ≤ 122 then b - 32 else b

/-- Embedding of `strings.ToUpper` on ASCII strings (all status codes the
protocol uses are ASCII). -/
def toUpperGo (s : GoStr) : GoStr := s.map upperByte

/-- ASCII case-folding, the spec-side notion for the comparison. -/
def caseFold (b : Nat) : Nat := if 65 ≤ b && b ≤ 90 then b + 32 else b

/-- Case-insensitive equality of byte strings, as the spec words it. -/
def eqCaseInsensitive (a b : GoStr) : Prop := a.map caseFold = b.map caseFold

def isASCII (s : GoStr) : Prop := ∀ b ∈ s, b < 128

instance (s : GoStr) : Decidable (isASCII s) :=
  inferInstanceAs (Decidable (∀ b ∈ s, b < 128))

/-- Tail of `Send` after a decoded response:
`if strings.ToUpper(response.Code) != "OK" { return false, response, nil };
return true, response, nil`. -/
def classifyResponse (r : GoResponse) : Bool × Option GoResponse × Option GoErr :=
  if toUpperGo r.code ≠ gs "OK" then (false, some r, none)
  else (true, some r, none)

/-- The fallible tail of `Send`: request construction, transport, body
read, JSON decode, then classification; each failing stage returns
`(false, nil, err)` at once. -/
def sendFinish (reqRes : Except GoErr Unit) (doRes : Except GoErr Unit)
    (readRes : Except GoErr GoStr)
    (decodeRes : GoStr → Except GoErr GoResponse) :
    Bool × Option GoResponse × Option GoErr :=
  match reqRes with
  | .error e => (false, none, some e)
  | .ok _ =>
    match doRes with
    | .error e => (false, none, some e)
    | .ok _ =>
      match readRes with
      | .error e => (false, none, some e)
      | .ok buf =>
        match decodeRes buf with
        | .error e => (false, none, some e)
        | .ok r => classifyResponse r

/-- The first failing stage's error, if any stage fails. -/
def firstError (reqRes : Except GoErr Unit) (doRes : Except GoErr Unit)
    (readRes : Except GoErr GoStr)
    (decodeRes : GoStr → Except GoErr GoResponse) : Option GoErr :=
  match reqRes with
  | .error e => some e
  | .ok _ =>
    match doRes with
    | .error e => some e
    | .ok _ =>
      match readRes with
      | .error e => some e
      | .ok buf =>
        match decodeRes buf with
        | .error e => some e
        | .ok _ => none

theorem replaceAllGo_nil_old (f : Nat) (s new : GoStr) :
    replaceAllGo f s [] new = s := by
  cases f <;> cases s <;> rfl

theorem replaceAllGo_nil (f : Nat) (o : Nat) (os new : GoStr) :
    replaceAllGo f [] (o :: os) new = [] := by
  cases f <;> rfl

theorem replaceAllGo_succ_cons (f : Nat) (a : Nat) (t : GoStr) (o : Nat)
    (os new : GoStr) :
    replaceAllGo (f + 1) (a :: t) (o :: os) new =
      if (o :: os).isPrefixOf (a :: t) then
        new ++ replaceAllGo f (t.drop os.length) (o :: os) new
      else
        a :: replaceAllGo f t (o :: os) new := rfl

theorem replaceAllGo_fuel_irrel (old new : GoStr) :
    ∀ f1 f2 : Nat, ∀ s : GoStr, s.length ≤ f1 → s.length ≤ f2 →
      replaceAllGo f1 s old new = replaceAllGo f2 s old new := by
  intro f1
  induction f1 with
  | zero =>
    intro f2 s h1 _
    have hs : s = [] := List.length_eq_zero.mp (Nat.le_zero.mp h1)
    subst hs
    cases old with
    | nil => rw [replaceAllGo_nil_old, replaceAllGo_nil_old]
    | cons o os => rw [replaceAllGo_nil, replaceAllGo_nil]
  | succ g1 ih =>
    intro f2 s h1 h2
    cases old with
    | nil => rw [replaceAllGo_nil_old, replaceAllGo_nil_old]
    | cons o os =>
      cases s with
      | nil => rw [replaceAllGo_nil, replaceAllGo_nil]
      | cons a t =>
        cases f2 with
        | zero => simp at h2
        | succ g2 =>
          rw [replaceAllGo_succ_cons, replaceAllGo_succ_cons]
          have ht1 : t.length ≤ g1 := by simp at h1; omega
          have ht2 : t.length ≤ g2 := by simp at h2; omega
          by_cases hp : (o :: os).isPrefixOf (a :: t)
          · rw [if_pos hp, if_pos hp]
            have hd1 : (t.drop os.length).length ≤ g1 := by
              simp only [List.length_drop]; omega
            have hd2 : (t.drop os.length).length ≤ g2 := by
              simp only [List.length_drop]; omega
            rw [ih g2 _ hd1 hd2]
          · rw [if_neg hp, if_neg hp]
            rw [ih g2 t ht1 ht2]

theorem replaceAll_nil_old (s new : GoStr) : replaceAll s [] new = s :=
  replaceAllGo_nil_old _ _ _

theorem replaceAll_nil (o : Nat) (os new : GoStr) :
    replaceAll [] (o :: os) new = [] :=
  replaceAllGo_nil _ _ _ _

theorem replaceAll_cons (a : Nat) (t : GoStr) (o : Nat) (os new : GoStr) :
    replaceAll (a :: t) (o :: os) new =
      if (o :: os).isPrefixOf (a :: t) then
        new ++ replaceAll (t.drop os.length) (o :: os) new
      else
        a :: replaceAll t (o :: os) new := by
  show replaceAllGo (t.length + 1) (a :: t) (o :: os) new = _
  rw [replaceAllGo_succ_cons]
  by_cases hp : (o :: os).isPrefixOf (a :: t)
  · simp only [hp, if_true]
    rw [replaceAllGo_fuel_irrel (o :: os) new t.length (t.drop os.length).length
      (t.drop os.length) (by simp only [List.length_drop]; omega) (Nat.le_refl _)]
    rfl
  · simp only [hp, if_false]
    rfl

theorem replaceAll_single_hit (c : Nat) (t new : GoStr) :
    replaceAll (c :: t) [c] new = new ++ replaceAll t [c] new := by
  rw [replaceAll_cons]
  simp [List.isPrefixOf]

theorem replaceAll_cons_miss (a : Nat) (t : GoStr) (o : Nat) (os new : GoStr)
    (h : ¬ (o :: os).isPrefixOf (a :: t)) :
    replaceAll (a :: t) (o :: os) new = a :: replaceAll t (o :: os) new := by
  rw [replaceAll_cons, if_neg h]

theorem replaceAll_append_not_mem (c : Nat) (B t new : GoStr) (h : c ∉ B) :
    replaceAll (B ++ t) [c] new = B ++ replaceAll t [c] new := by
  induction B with
  | nil => rfl
  | cons b B' ih =>
    have hbc : b ≠ c := by
      intro he; exact h (by simp [he])
    have hmem : c ∉ B' := fun hm => h (List.mem_cons_of_mem _ hm)
    have hnp : ¬ [c].isPrefixOf (b :: (B' ++ t)) = true := by
      simp [List.isPrefixOf]
      exact fun he => hbc he.symm
    rw [List.cons_append, replaceAll_cons_miss _ _ _ _ _ hnp, ih hmem,
      List.cons_append]

theorem replaceAll_of_not_hasSubstr (s old new : GoStr)
    (h : hasSubstr s old = false) : replaceAll s old new = s := by
  induction s with
  | nil =>
    cases old with
    | nil => exact replaceAll_nil_old _ _
    | cons o os => exact replaceAll_nil _ _ _
  | cons a t ih =>
    cases old with
    | nil => simp [hasSubstr] at h
    | cons o os =>
      have hun : ((o :: os).isPrefixOf (a :: t) || hasSubstr t (o :: os)) = false := h
      rw [Bool.or_eq_false_iff] at hun
      rw [replaceAll_cons_miss _ _ _ _ _ (by simp [hun.1]), ih hun.2]

theorem hasSubstr_single (s : GoStr) (c : Nat) (h : c ∉ s) :
    hasSubstr s [c] = false := by
  induction s with
  | nil => rfl
  | cons a t ih =>
    have hac : a ≠ c := fun he => h (by simp [he])
    have hmem : c ∉ t := fun hm => h (List.mem_cons_of_mem _ hm)
    show ([c].isPrefixOf (a :: t) || hasSubstr t [c]) = false
    rw [ih hmem]
    simp [List.isPrefixOf, Ne.symm hac]

theorem unreservedB_ranges (b : Nat) (h : unreservedB b = true) :
    (65 ≤ b ∧ b ≤ 90) ∨ (97 ≤ b ∧ b ≤ 122) ∨ (48 ≤ b ∧ b ≤ 57) ∨
      b = 45 ∨ b = 95 ∨ b = 46 ∨ b = 126 := by
  simp only [unreservedB, Bool.or_eq_true, Bool.and_eq_true, decide_eq_true_eq,
    beq_iff_eq] at h
  tauto

theorem hexDigitChar_ranges (n : Nat) :
    (48 ≤ hexDigitChar n ∧ hexDigitChar n ≤ 57) ∨ 65 ≤ hexDigitChar n := by
  unfold hexDigitChar
  split <;> omega

theorem hexDigitChar_ne_37 (n : Nat) : hexDigitChar n ≠ 37 := by
  have := hexDigitChar_ranges n; omega

theorem hexDigitChar_ne_42 (n : Nat) : hexDigitChar n ≠ 42 := by
  have := hexDigitChar_ranges n; omega

theorem hexDigitChar_ne_43 (n : Nat) : hexDigitChar n ≠ 43 := by
  have := hexDigitChar_ranges n; omega

theorem hexDigitChar_eq_55 (n : Nat) (h : hexDigitChar n = 55) : n = 7 := by
  unfold hexDigitChar at h
  split at h <;> omega

theorem hexDigitChar_eq_69 (n : Nat) (h : hexDigitChar n = 69) : n = 14 := by
  unfold hexDigitChar at h
  split at h <;> omega

theorem replaceAll_flatten_single (c : Nat) (new : GoStr) :
    ∀ blocks : List GoStr, (∀ B ∈ blocks, B = [c] ∨ c ∉ B) →
      replaceAll blocks.flatten [c] new =
        (blocks.map (fun B => if B = [c] then new else B)).flatten := by
  intro blocks
  induction blocks with
  | nil => intro _; exact replaceAll_nil _ _ _
  | cons B rest ih =>
    intro h
    have hB := h B (List.mem_cons_self _ _)
    have hrest : ∀ B' ∈ rest, B' = [c] ∨ c ∉ B' :=
      fun B' hm => h B' (List.mem_cons_of_mem _ hm)
    rcases hB with hB | hB
    · subst hB
      rw [List.flatten_cons, List.map_cons, List.singleton_append,
        replaceAll_single_hit, ih hrest]
      simp
    · have hne : B ≠ [c] := fun he => hB (he ▸ List.mem_singleton.mpr rfl)
      simp only [List.flatten_cons, List.map_cons, if_neg hne,
        replaceAll_append_not_mem c B _ new hB, ih hrest]

theorem escByte_plus_subst (b : Nat) :
    (if escByte b = [43] then [37, 50, 48] else escByte b) = specialEncByte b := by
  by_cases hu : unreservedB b
  · have hb : b ≠ 43 := by
      intro he; subst he; exact absurd hu (by decide)
    simp [escByte, specialEncByte, hu]
    omega
  · by_cases h32 : b = 32
    · subst h32
      have h32f : unreservedB 32 = false := by decide
      simp [escByte, specialEncByte, h32f]
    · have h1 : escByte b = [37, hexDigitChar (b / 16), hexDigitChar (b % 16)] := by
        simp [escByte, hu, h32]
      rw [h1]
      have h2 : ([37, hexDigitChar (b / 16), hexDigitChar (b % 16)] : GoStr) ≠ [43] := by
        simp
      rw [if_neg h2]
      simp [specialEncByte, hu, h32]

theorem escByte_plus_cases (b : Nat) : escByte b = [43] ∨ (43 : Nat) ∉ escByte b := by
  by_cases hu : unreservedB b
  · right
    have hb : b ≠ 43 := by
      intro he; subst he; exact absurd hu (by decide)
    simp [escByte, hu]
    omega
  · by_cases h32 : b = 32
    · left; subst h32; rfl
    · right
      simp [escByte, hu, h32]
      exact ⟨fun he => hexDigitChar_ne_43 _ he.symm,
        fun he => hexDigitChar_ne_43 _ he.symm⟩

/-- After the `+`-correction pass, the generic escape has become the bytewise
spec encoder. -/
theorem stage1_eq (s : GoStr) :
    replaceAll (QueryEscape s) [43] [37, 50, 48] = (s.map specialEncByte).flatten := by
  unfold QueryEscape
  rw [replaceAll_flatten_single 43 [37, 50, 48] (s.map escByte)
    (by intro B hm
        rcases List.mem_map.mp hm with ⟨b, _, rfl⟩
        exact escByte_plus_cases b)]
  rw [List.map_map]
  have hfun : ((fun B => if B = [43] then [37, 50, 48] else B) ∘ escByte) =
      specialEncByte := by
    funext b
    exact escByte_plus_subst b
  rw [hfun]

theorem hasSubstr_cons (a : Nat) (t : GoStr) (p : Nat) (ps : GoStr) :
    hasSubstr (a :: t) (p :: ps) =
      ((p :: ps).isPrefixOf (a :: t) || hasSubstr t (p :: ps)) := rfl

/-- Blocks that are either a single non-`%` byte or a `%`-escape whose hex
pair is not `7E` can never concatenate into an occurrence of `%7E`. -/
theorem pct7E_not_in_flatten :
    ∀ blocks : List GoStr,
      (∀ B ∈ blocks, (∃ u, B = [u] ∧ u ≠ 37) ∨
        (∃ x y, B = [37, x, y] ∧ x ≠ 37 ∧ y ≠ 37 ∧ ¬(x = 55 ∧ y = 69))) →
      hasSubstr blocks.flatten [37, 55, 69] = false := by
  intro blocks
  induction blocks with
  | nil => intro _; rfl
  | cons B rest ih =>
    intro h
    have hB := h B (List.mem_cons_self _ _)
    have ihres := ih (fun B' hm => h B' (List.mem_cons_of_mem _ hm))
    rcases hB with ⟨u, rfl, hu⟩ | ⟨x, y, rfl, hx, hy, hxy⟩
    · rw [List.flatten_cons, List.singleton_append, hasSubstr_cons, ihres,
        Bool.or_false]
      show (((37 : Nat) == u) && _) = false
      have h37 : ((37 : Nat) == u) = false := by simp [beq_iff_eq]; omega
      rw [h37, Bool.false_and]
    · rw [List.flatten_cons]
      show hasSubstr (37 :: x :: y :: rest.flatten) [37, 55, 69] = false
      rw [hasSubstr_cons, hasSubstr_cons, hasSubstr_cons, ihres, Bool.or_false]
      have e1 : ([37, 55, 69].isPrefixOf (37 :: x :: y :: rest.flatten)) = false := by
        show (((37 : Nat) == 37) && (((55 : Nat) == x) && (((69 : Nat) == y) &&
          (List.isPrefixOf [] rest.flatten)))) = false
        by_cases h55 : x = 55
        · subst h55
          have h69 : ((69 : Nat) == y) = false := by
            simp [beq_iff_eq]
            intro he; exact hxy ⟨rfl, he.symm⟩
          rw [h69]
          simp
        · have h55' : ((55 : Nat) == x) = false := by simp [beq_iff_eq]; omega
          rw [h55']
          simp
      have e2 : ([37, 55, 69].isPrefixOf (x :: y :: rest.flatten)) = false := by
        show (((37 : Nat) == x) && _) = false
        have : ((37 : Nat) == x) = false := by simp [beq_iff_eq]; omega
        rw [this, Bool.false_and]
      have e3 : ([37, 55, 69].isPrefixOf (y :: rest.flatten)) = false := by
        show (((37 : Nat) == y) && _) = false
        have : ((37 : Nat) == y) = false := by simp [beq_iff_eq]; omega
        rw [this, Bool.false_and]
      rw [e1, e2, e3]
      rfl

theorem specialEncByte_blocks (b : Nat) :
    (∃ u, specialEncByte b = [u] ∧ u ≠ 37) ∨
      (∃ x y, specialEncByte b = [37, x, y] ∧ x ≠ 37 ∧ y ≠ 37 ∧
        ¬(x = 55 ∧ y = 69)) := by
  by_cases hu : unreservedB b
  · left
    refine ⟨b, by simp [specialEncByte, hu], ?_⟩
    have := unreservedB_ranges b hu
    omega
  · right
    by_cases h32 : b = 32
    · subst h32
      exact ⟨50, 48, rfl, by omega, by omega, by omega⟩
    · refine ⟨hexDigitChar (b / 16), hexDigitChar (b % 16),
        by simp [specialEncByte, hu, h32], hexDigitChar_ne_37 _,
        hexDigitChar_ne_37 _, ?_⟩
      rintro ⟨h55, h69⟩
      have h7 := hexDigitChar_eq_55 _ h55
      have h14 := hexDigitChar_eq_69 _ h69
      have hb126 : b = 126 := by omega
      subst hb126
      exact hu (by decide)

theorem not42_specialEncByte (b : Nat) : (42 : Nat) ∉ specialEncByte b := by
  intro hmem
  by_cases hu : unreservedB b
  · simp [specialEncByte, hu] at hmem
    subst hmem
    exact absurd hu (by decide)
  · by_cases h32 : b = 32
    · subst h32
      have he : specialEncByte 32 = [37, 50, 48] := rfl
      rw [he] at hmem
      simp at hmem
    · have he : specialEncByte b =
          [37, hexDigitChar (b / 16), hexDigitChar (b % 16)] := by
        simp [specialEncByte, hu, h32]
      rw [he] at hmem
      rcases List.mem_cons.mp hmem with h | hmem2
      · omega
      rcases List.mem_cons.mp hmem2 with h | hmem3
      · exact hexDigitChar_ne_42 _ h.symm
      rcases List.mem_cons.mp hmem3 with h | hmem4
      · exact hexDigitChar_ne_42 _ h.symm
      · simp at hmem4

theorem not43_specialEncByte (b : Nat) : (43 : Nat) ∉ specialEncByte b := by
  intro hmem
  by_cases hu : unreservedB b
  · simp [specialEncByte, hu] at hmem
    subst hmem
    exact absurd hu (by decide)
  · by_cases h32 : b = 32
    · subst h32
      have he : specialEncByte 32 = [37, 50, 48] := rfl
      rw [he] at hmem
      simp at hmem
    · have he : specialEncByte b =
          [37, hexDigitChar (b / 16), hexDigitChar (b % 16)] := by
        simp [specialEncByte, hu, h32]
      rw [he] at hmem
      rcases List.mem_cons.mp hmem with h | hmem2
      · omega
      rcases List.mem_cons.mp hmem2 with h | hmem3
      · exact hexDigitChar_ne_43 _ h.symm
      rcases List.mem_cons.mp hmem3 with h | hmem4
      · exact hexDigitChar_ne_43 _ h.symm
      · simp at hmem4

/-- Main characterization: the source `SpecialURLEncode` encodes bytewise
with the three corrections folded in (the `*` and `%7E` passes are no-ops
on generic-escape output, the `+` pass rewrites exactly the space blocks). -/
theorem SpecialURLEncode_eq_flatten (s : GoStr) :
    SpecialURLEncode s = (s.map specialEncByte).flatten := by
  show replaceAll (replaceAll (replaceAll (QueryEscape s) [43] [37, 50, 48])
      [42] [37, 50, 65]) [37, 55, 69] [126] = _
  rw [stage1_eq]
  have h42 : hasSubstr ((s.map specialEncByte).flatten) [42] = false := by
    apply hasSubstr_single
    intro hmem
    rcases List.mem_flatten.mp hmem with ⟨B, hB, hxB⟩
    rcases List.mem_map.mp hB with ⟨b, _, rfl⟩
    exact not42_specialEncByte b hxB
  rw [replaceAll_of_not_hasSubstr _ _ _ h42]
  exact replaceAll_of_not_hasSubstr _ _ _ (pct7E_not_in_flatten _ (by
    intro B hB
    rcases List.mem_map.mp hB with ⟨b, _, rfl⟩
    exact specialEncByte_blocks b))

theorem queryEscape_sample : QueryEscape (gs "a b*~/") = gs "a+b%2A~%2F" := by decide
theorem specialURLEncode_sample : SpecialURLEncode (gs "a b*~/") = gs "a%20b%2A~%2F" := by decide
theorem specialURLEncode_slash : SpecialURLEncode (gs "/") = gs "%2F" := by decide
theorem hasSubstr_sample_pos : hasSubstr (gs "abc%7Ed") (gs "%7E") = true := by decide
theorem hasSubstr_sample_neg : hasSubstr (gs "abc%7d") (gs "%7E") = false := by decide

/-!
## Shape of the canonical query string
-/

theorem encodePairs_acc (ps : Params) :
    ∀ keys : List GoStr, ∀ buf : GoStr, buf ≠ [] →
      encodePairs ps keys buf =
        buf ++ (keys.map (fun k =>
          [38] ++ QueryEscape k ++ [61] ++ QueryEscape (valueOf ps k))).flatten := by
  intro keys
  induction keys with
  | nil => intro buf _; simp [encodePairs]
  | cons k rest ih =>
    intro buf hbuf
    show encodePairs ps rest
        ((if buf = [] then buf else buf ++ [38]) ++
          QueryEscape k ++ [61] ++ QueryEscape (valueOf ps k)) = _
    rw [if_neg hbuf]
    rw [ih _ (by simp)]
    simp [List.append_assoc]

theorem joinAmp_cons_flatten (x : GoStr) (xs : List GoStr) :
    joinAmp (x :: xs) = x ++ (xs.map (fun y => [38] ++ y)).flatten := by
  induction xs generalizing x with
  | nil => simp [joinAmp]
  | cons y rest ih =>
    show x ++ [38] ++ joinAmp (y :: rest) = _
    rw [ih y]
    simp [List.append_assoc]

/-- The canonical query string is the `&`-join of the plainly
(`url.QueryEscape`) encoded `key=value` pairs over the sorted keys. -/
theorem SortedQueryStr_join (ps : Params) :
    SortedQueryStr ps = joinAmp ((sortedKeys ps).map (fun k =>
      QueryEscape k ++ [61] ++ QueryEscape (valueOf ps k))) := by
  unfold SortedQueryStr
  cases hks : sortedKeys ps with
  | nil => rfl
  | cons k rest =>
    have h1 : encodePairs ps (k :: rest) [] =
        encodePairs ps rest
          (QueryEscape k ++ [61] ++ QueryEscape (valueOf ps k)) := by
      show encodePairs ps rest
          ((if ([] : GoStr) = [] then ([] : GoStr) else [] ++ [38]) ++
            QueryEscape k ++ [61] ++ QueryEscape (valueOf ps k)) = _
      rw [if_pos rfl]
      simp
    rw [h1]
    cases rest with
    | nil =>
      show QueryEscape k ++ [61] ++ QueryEscape (valueOf ps k) = _
      simp [joinAmp]
    | cons k2 rest2 =>
      rw [encodePairs_acc ps _ _ (by simp)]
      conv_rhs => rw [List.map_cons, joinAmp_cons_flatten]
      simp [List.map_map, List.append_assoc, Function.comp]
      rfl

/-!
## Sorting: the key order of `sort.Strings`
-/

theorem lexLeB_cons (x y : Nat) (as bs : GoStr) :
    lexLeB (x :: as) (y :: bs) =
      (decide (x < y) || (x == y && lexLeB as bs)) := rfl

theorem lexLeB_total : ∀ a b : GoStr, lexLeB a b = true ∨ lexLeB b a = true := by
  intro a
  induction a with
  | nil => intro b; left; rfl
  | cons x as ih =>
    intro b
    cases b with
    | nil => right; rfl
    | cons y bs =>
      rcases Nat.lt_trichotomy x y with h | h | h
      · left; rw [lexLeB_cons]; simp [h]
      · subst h
        rcases ih bs with hl | hl
        · left; rw [lexLeB_cons]; simp [hl]
        · right; rw [lexLeB_cons]; simp [hl]
      · right; rw [lexLeB_cons]; simp [h]

theorem lexLeB_trans : ∀ a b c : GoStr,
    lexLeB a b = true → lexLeB b c = true → lexLeB a c = true := by
  intro a
  induction a with
  | nil => intro b c _ _; rfl
  | cons x as ih =>
    intro b c hab hbc
    cases b with
    | nil => exact absurd hab (by simp [lexLeB])
    | cons y bs =>
      cases c with
      | nil => exact absurd hbc (by simp [lexLeB])
      | cons z cs =>
        rw [lexLeB_cons] at hab hbc ⊢
        rw [Bool.or_eq_true, Bool.and_eq_true, beq_iff_eq,
          decide_eq_true_eq] at hab hbc ⊢
        rcases hab with h1 | ⟨he1, hr1⟩
        · rcases hbc with h2 | ⟨he2, hr2⟩
          · left; omega
          · left; omega
        · rcases hbc with h2 | ⟨he2, hr2⟩
          · left; omega
          · right; exact ⟨by omega, ih bs cs hr1 hr2⟩

instance : IsTotal GoStr keyLe := ⟨lexLeB_total⟩

instance : IsTrans GoStr keyLe := ⟨fun a b c => lexLeB_trans a b c⟩

theorem sortedKeys_sorted (ps : Params) : List.Sorted keyLe (sortedKeys ps) :=
  List.sorted_insertionSort keyLe _

theorem sortedKeys_perm (ps : Params) :
    (sortedKeys ps).Perm (ps.map Prod.fst) :=
  List.perm_insertionSort keyLe _

theorem strictAscB_of_sorted_nodup :
    ∀ l : List GoStr, List.Sorted keyLe l → l.Nodup → strictAscB l = true := by
  intro l
  induction l with
  | nil => intro _ _; rfl
  | cons x rest ih =>
    intro hs hn
    cases rest with
    | nil => rfl
    | cons y rest2 =>
      show (lexLtB x y && strictAscB (y :: rest2)) = true
      rw [Bool.and_eq_true]
      refine ⟨?_, ih (List.sorted_cons.mp hs).2 (List.nodup_cons.mp hn).2⟩
      have hxy : lexLeB x y = true := (List.sorted_cons.mp hs).1 y (by simp)
      have hne : x ≠ y := by
        intro he
        exact (List.nodup_cons.mp hn).1 (he ▸ List.mem_cons_self _ _)
      unfold lexLtB
      rw [hxy]
      simp [hne]

/-!
## Parameter store laws and the `Send` parameter pipeline
-/

theorem lookupP_setP_same (ps : Params) (k v : GoStr) :
    lookupP (setP ps k v) k = some v := by
  induction ps with
  | nil => simp [setP, lookupP]
  | cons kv rest ih =>
    obtain ⟨k', v'⟩ := kv
    by_cases h : k' = k
    · subst h; simp [setP, lookupP]
    · simp [setP, lookupP, h, ih]

theorem lookupP_setP_other (ps : Params) (k k2 v : GoStr) (h : k2 ≠ k) :
    lookupP (setP ps k v) k2 = lookupP ps k2 := by
  have h' : ¬ k = k2 := fun he => h he.symm
  induction ps with
  | nil => simp [setP, lookupP, h']
  | cons kv rest ih =>
    obtain ⟨k', v'⟩ := kv
    by_cases hk : k' = k
    · subst hk
      simp [setP, lookupP, h']
    · simp [setP, lookupP, hk, ih]

theorem lookupP_applyParams (ovs : List ParamOp) :
    ∀ ps : Params, ∀ k : GoStr,
      lookupP (applyParams ps ovs) k =
        match lastOv ovs k with
        | some v => some v
        | none => lookupP ps k := by
  induction ovs with
  | nil => intro ps k; rfl
  | cons o rest ih =>
    intro ps k
    show lookupP (applyParams (setP ps o.key o.value) rest) k = _
    rw [ih]
    cases hl : lastOv rest k with
    | some v => simp [lastOv, hl]
    | none =>
      simp only [lastOv, hl]
      by_cases hk : o.key = k
      · subst hk
        rw [lookupP_setP_same, if_pos rfl]
      · rw [lookupP_setP_other _ _ _ _ (fun he => hk he.symm), if_neg hk]

/-- Full characterization of the store at signing time: a required business
field always holds the call argument; otherwise the last caller override
wins; otherwise the step-1 default; otherwise whatever the store already
held. -/
theorem sendPrepare_lookup (ps0 : Params) (nowT : GoTime) (uuid : GoStr)
    (ovs : List ParamOp) (nums : List GoStr) (sn tc tp : GoStr) (k : GoStr) :
    lookupP (sendPrepare ps0 nowT uuid ovs nums sn tc tp) k =
      if k = gs "TemplateParam" then some tp
      else if k = gs "TemplateCode" then some tc
      else if k = gs "SignName" then some sn
      else if k = gs "PhoneNumbers" then some (GenPhoneNumbersStr nums)
      else
        match lastOv ovs k with
        | some v => some v
        | none =>
          if k = gs "RegionId" then some (gs "cn-hangzhou")
          else if k = gs "Version" then some (gs "2017-05-25")
          else if k = gs "Action" then some (gs "SendSms")
          else if k = gs "SignatureNonce" then some uuid
          else if k = gs "SignatureVersion" then some (gs "1.0")
          else if k = gs "SignatureMethod" then some (gs "HMAC-SHA1")
          else if k = gs "Format" then some (gs "JSON")
          else if k = gs "Timestamp" then some (GenTimestamp nowT)
          else lookupP ps0 k := by
  unfold sendPrepare setRequired
  by_cases h1 : k = gs "TemplateParam"
  · subst h1; rw [lookupP_setP_same, if_pos rfl]
  rw [lookupP_setP_other _ _ _ _ h1, if_neg h1]
  by_cases h2 : k = gs "TemplateCode"
  · subst h2; rw [lookupP_setP_same, if_pos rfl]
  rw [lookupP_setP_other _ _ _ _ h2, if_neg h2]
  by_cases h3 : k = gs "SignName"
  · subst h3; rw [lookupP_setP_same, if_pos rfl]
  rw [lookupP_setP_other _ _ _ _ h3, if_neg h3]
  by_cases h4 : k = gs "PhoneNumbers"
  · subst h4; rw [lookupP_setP_same, if_pos rfl]
  rw [lookupP_setP_other _ _ _ _ h4, if_neg h4]
  rw [lookupP_applyParams]
  cases lastOv ovs k with
  | some v => rfl
  | none =>
    show lookupP (seedDefaults ps0 nowT uuid) k = _
    unfold seedDefaults
    by_cases h5 : k = gs "RegionId"
    · subst h5; rw [lookupP_setP_same, if_pos rfl]
    rw [lookupP_setP_other _ _ _ _ h5, if_neg h5]
    by_cases h6 : k = gs "Version"
    · subst h6; rw [lookupP_setP_same, if_pos rfl]
    rw [lookupP_setP_other _ _ _ _ h6, if_neg h6]
    by_cases h7 : k = gs "Action"
    · subst h7; rw [lookupP_setP_same, if_pos rfl]
    rw [lookupP_setP_other _ _ _ _ h7, if_neg h7]
    by_cases h8 : k = gs "SignatureNonce"
    · subst h8; rw [lookupP_setP_same, if_pos rfl]
    rw [lookupP_setP_other _ _ _ _ h8, if_neg h8]
    by_cases h9 : k = gs "SignatureVersion"
    · subst h9; rw [lookupP_setP_same, if_pos rfl]
    rw [lookupP_setP_other _ _ _ _ h9, if_neg h9]
    by_cases h10 : k = gs "SignatureMethod"
    · subst h10; rw [lookupP_setP_same, if_pos rfl]
    rw [lookupP_setP_other _ _ _ _ h10, if_neg h10]
    by_cases h11 : k = gs "Format"
    · subst h11; rw [lookupP_setP_same, if_pos rfl]
    rw [lookupP_setP_other _ _ _ _ h11, if_neg h11]
    by_cases h12 : k = gs "Timestamp"
    · subst h12; rw [lookupP_setP_same, if_pos rfl]
    rw [lookupP_setP_other _ _ _ _ h12, if_neg h12]

/-- No exported helper of the package targets the `Signature` key. -/
theorem packageParam_key_ne_Signature (p : PackageParam) :
    (PackageParam.toOp p).key ≠ gs "Signature" := by
  cases p with
  | timestampOpt t => show gs "Timestamp" ≠ gs "Signature"; decide
  | signatureMethodOpt m => show gs "SignatureMethod" ≠ gs "Signature"; decide
  | signatureVersionOpt v => show gs "SignatureVersion" ≠ gs "Signature"; decide
  | signatureNonceOpt n => show gs "SignatureNonce" ≠ gs "Signature"; decide
  | actionOpt a => show gs "Action" ≠ gs "Signature"; decide
  | versionOpt v => show gs "Version" ≠ gs "Signature"; decide
  | regionIDOpt i => show gs "RegionId" ≠ gs "Signature"; decide
  | outIDOpt i => show gs "OutId" ≠ gs "Signature"; decide

theorem lastOv_map_packageParam (hs : List PackageParam) :
    lastOv (hs.map PackageParam.toOp) (gs "Signature") = none := by
  induction hs with
  | nil => rfl
  | cons p rest ih =>
    show lastOv (PackageParam.toOp p :: rest.map PackageParam.toOp) _ = none
    unfold lastOv
    rw [ih, if_neg (packageParam_key_ne_Signature p)]

/-!
## Structural facts about the digest pipeline
-/

theorem sha1_length (msg : List Nat) : (sha1 msg).length = 20 := by
  unfold sha1
  simp [w32Bytes]

theorem hmacSha1_length (key msg : List Nat) :
    (hmacSha1 key msg).length = 20 :=
  sha1_length _

theorem base64_ends (n : Nat) : ∀ s : List Nat, s.length ≤ n →
    s.length % 3 = 2 → ∃ u, base64Encode s = u ++ [61] := by
  induction n with
  | zero =>
    intro s h1 h2
    have : s.length = 0 := by omega
    omega
  | succ m ih =>
    intro s h1 h2
    rcases s with _ | ⟨b0, _ | ⟨b1, _ | ⟨b2, rest⟩⟩⟩
    · simp at h2
    · simp at h2
    · exact ⟨[b64char (b0 / 4), b64char (b0 % 4 * 16 + b1 / 16),
        b64char (b1 % 16 * 4)], rfl⟩
    · have hr2 : rest.length % 3 = 2 := by
        simp [List.length_cons] at h2
        omega
      have hr1 : rest.length ≤ m := by
        simp [List.length_cons] at h1
        omega
      obtain ⟨u, hu⟩ := ih rest hr1 hr2
      refine ⟨b64char (b0 / 4) :: b64char (b0 % 4 * 16 + b1 / 16) ::
        b64char (b1 % 16 * 4 + b2 / 64) :: b64char (b2 % 64) :: u, ?_⟩
      show b64char (b0 / 4) :: b64char (b0 % 4 * 16 + b1 / 16) ::
        b64char (b1 % 16 * 4 + b2 / 64) :: b64char (b2 % 64) ::
          base64Encode rest = _
      rw [hu]
      simp

theorem base64_two_mod (s : List Nat) (h : s.length % 3 = 2) :
    ∃ u, base64Encode s = u ++ [61] :=
  base64_ends s.length s (Nat.le_refl _) h

theorem QueryEscape_append (x y : GoStr) :
    QueryEscape (x ++ y) = QueryEscape x ++ QueryEscape y := by
  simp [QueryEscape]

theorem SpecialURLEncode_append (x y : GoStr) :
    SpecialURLEncode (x ++ y) = SpecialURLEncode x ++ SpecialURLEncode y := by
  rw [SpecialURLEncode_eq_flatten, SpecialURLEncode_eq_flatten,
    SpecialURLEncode_eq_flatten]
  simp

/-- The two `SignedString` variants always disagree: the base64 of a 20-byte
HMAC-SHA1 digest ends in `=`, which the single corrected pass turns into
`%3D` and the double encoding into `%253D`. -/
theorem signedString_variants_differ (ps : Params) (secret : GoStr) :
    SMSSignedString ps secret ≠ ClientSignedString ps secret := by
  unfold SMSSignedString ClientSignedString
  obtain ⟨u, hu⟩ := base64_two_mod (hmacSha1 (secret ++ gs "&") (StringToSign ps))
    (by rw [hmacSha1_length])
  rw [hu]
  have hQ : QueryEscape (u ++ [61]) = QueryEscape u ++ [37, 51, 68] := by
    rw [QueryEscape_append]; rfl
  rw [hQ]
  have hL : SpecialURLEncode (QueryEscape u ++ [37, 51, 68]) =
      SpecialURLEncode (QueryEscape u) ++ [37, 50, 53, 51, 68] := by
    rw [SpecialURLEncode_append]; rfl
  have hR : SpecialURLEncode (u ++ [61]) = SpecialURLEncode u ++ [37, 51, 68] := by
    rw [SpecialURLEncode_append]; rfl
  rw [hL, hR]
  intro heq
  have h2 := congrArg (fun l => l.reverse[2]?) heq
  simp only [] at h2
  have hLv : (SpecialURLEncode (QueryEscape u) ++ [37, 50, 53, 51, 68]).reverse[2]? =
      some 53 := by
    rw [List.reverse_append]
    rw [List.getElem?_append_left (by simp)]
    rfl
  have hRv : (SpecialURLEncode u ++ [37, 51, 68]).reverse[2]? = some 37 := by
    rw [List.reverse_append]
    rw [List.getElem?_append_left (by simp)]
    rfl
  rw [hLv, hRv] at h2
  simp at h2

/-!
## Decimal formatting facts
-/

theorem decDigitsGo_fuel : ∀ f1 f2 n : Nat, n ≤ f1 → n ≤ f2 →
    decDigitsGo f1 n = decDigitsGo f2 n := by
  intro f1
  induction f1 with
  | zero =>
    intro f2 n h1 _
    have hn : n = 0 := by omega
    subst hn
    cases f2 with
    | zero => rfl
    | succ g2 => rfl
  | succ g1 ih =>
    intro f2 n h1 h2
    cases f2 with
    | zero =>
      have hn : n = 0 := by omega
      subst hn
      rfl
    | succ g2 =>
      show (if n < 10 then [48 + n] else decDigitsGo g1 (n / 10) ++ [48 + n % 10]) =
        (if n < 10 then [48 + n] else decDigitsGo g2 (n / 10) ++ [48 + n % 10])
      by_cases h : n < 10
      · rw [if_pos h, if_pos h]
      · rw [if_neg h, if_neg h]
        have hd : n / 10 < n := Nat.div_lt_self (by omega) (by omega)
        rw [ih g2 (n / 10) (by omega) (by omega)]

theorem decDigits_lt (n : Nat) (h : n < 10) : decDigits n = [48 + n] := by
  unfold decDigits
  cases n with
  | zero => rfl
  | succ m =>
    show (if m + 1 < 10 then [48 + (m + 1)] else _) = _
    rw [if_pos h]

theorem decDigits_ge (n : Nat) (h : 10 ≤ n) :
    decDigits n = decDigits (n / 10) ++ [48 + n % 10] := by
  unfold decDigits
  obtain ⟨m, rfl⟩ : ∃ m, n = m + 1 := ⟨n - 1, by omega⟩
  show (if m + 1 < 10 then [48 + (m + 1)] else decDigitsGo m ((m + 1) / 10) ++
    [48 + (m + 1) % 10]) = _
  rw [if_neg (by omega)]
  have hd : (m + 1) / 10 < m + 1 := Nat.div_lt_self (by omega) (by omega)
  rw [decDigitsGo_fuel m ((m + 1) / 10) ((m + 1) / 10) (by omega) (Nat.le_refl _)]

theorem decDigits_two (n : Nat) (h1 : 10 ≤ n) (h2 : n < 100) :
    decDigits n = [48 + n / 10, 48 + n % 10] := by
  rw [decDigits_ge n h1, decDigits_lt (n / 10) (by omega)]
  rfl

theorem decDigits_three (n : Nat) (h1 : 100 ≤ n) (h2 : n < 1000) :
    decDigits n = [48 + n / 100, 48 + n / 10 % 10, 48 + n % 10] := by
  rw [decDigits_ge n (by omega), decDigits_two (n / 10) (by omega) (by omega)]
  have e1 : n / 10 / 10 = n / 100 := by omega
  have e2 : n / 10 % 10 = n / 10 % 10 := rfl
  rw [e1]
  rfl

theorem decDigits_four (n : Nat) (h1 : 1000 ≤ n) (h2 : n < 10000) :
    decDigits n = [48 + n / 1000, 48 + n / 100 % 10, 48 + n / 10 % 10, 48 + n % 10] := by
  rw [decDigits_ge n (by omega), decDigits_three (n / 10) (by omega) (by omega)]
  have e1 : n / 10 / 100 = n / 1000 := by omega
  have e2 : n / 10 / 10 % 10 = n / 100 % 10 := by omega
  rw [e1, e2]
  rfl

theorem digitsFixed_two (n : Nat) :
    digitsFixed 2 n = [48 + n / 10 % 10, 48 + n % 10] := by
  show (48 + n / 10 ^ 1 % 10) :: (48 + n / 10 ^ 0 % 10) :: [] = _
  simp [Nat.pow_zero, Nat.pow_one, Nat.div_one]

theorem digitsFixed_four (n : Nat) :
    digitsFixed 4 n =
      [48 + n / 1000 % 10, 48 + n / 100 % 10, 48 + n / 10 % 10, 48 + n % 10] := by
  show (48 + n / 10 ^ 3 % 10) :: (48 + n / 10 ^ 2 % 10) :: (48 + n / 10 ^ 1 % 10) ::
    (48 + n / 10 ^ 0 % 10) :: [] = _
  norm_num

theorem fmtPad_two (n : Nat) (h : n < 100) : fmtPad 2 n = digitsFixed 2 n := by
  unfold fmtPad
  rw [digitsFixed_two]
  by_cases h1 : n < 10
  · rw [decDigits_lt n h1]
    have e1 : n / 10 % 10 = 0 := by omega
    have e2 : n % 10 = n := by omega
    simp [e1, e2, List.replicate]
  · rw [decDigits_two n (by omega) h]
    have e1 : n / 10 % 10 = n / 10 := by omega
    simp [e1, List.replicate]

theorem fmtPad_four (n : Nat) (h : n < 10000) : fmtPad 4 n = digitsFixed 4 n := by
  unfold fmtPad
  rw [digitsFixed_four]
  by_cases h1 : n < 10
  · rw [decDigits_lt n h1]
    have e1 : n / 1000 % 10 = 0 := by omega
    have e2 : n / 100 % 10 = 0 := by omega
    have e3 : n / 10 % 10 = 0 := by omega
    have e4 : n % 10 = n := by omega
    simp [e1, e2, e3, e4, List.replicate]
  by_cases h2 : n < 100
  · rw [decDigits_two n (by omega) h2]
    have e1 : n / 1000 % 10 = 0 := by omega
    have e2 : n / 100 % 10 = 0 := by omega
    have e3 : n / 10 % 10 = n / 10 := by omega
    simp [e1, e2, e3, List.replicate]
  by_cases h3 : n < 1000
  · rw [decDigits_three n (by omega) h3]
    have e1 : n / 1000 % 10 = 0 := by omega
    have e2 : n / 100 % 10 = n / 100 := by omega
    simp [e1, e2, List.replicate]
  · rw [decDigits_four n (by omega) h]
    have e1 : n / 1000 % 10 = n / 1000 := by omega
    simp [e1, List.replicate]

/-- Under the realistic component bounds the source timestamp format agrees
with the spec's fixed-width reading. -/
theorem genTimestamp_spec (t : GoTime) (hy : t.year < 10000) (hmo : t.month < 100)
    (hd : t.day < 100) (hh : t.hour < 100) (hmi : t.minute < 100)
    (hs : t.second < 100) : GenTimestamp t = specTimestamp t := by
  unfold GenTimestamp specTimestamp
  rw [fmtPad_four _ hy, fmtPad_two _ hmo, fmtPad_two _ hd, fmtPad_two _ hh,
    fmtPad_two _ hmi, fmtPad_two _ hs]

/-!
## Classification and error propagation facts
-/

theorem upperByte_iff (b u : Nat) (h1 : 65 ≤ u) (h2 : u ≤ 90) :
    (upperByte b = u) ↔ (caseFold b = u + 32) := by
  unfold upperByte caseFold
  split_ifs with hA hB hB <;>
    simp only [Bool.and_eq_true, decide_eq_true_eq, Bool.not_eq_true] at hA hB <;>
    omega

theorem toUpper_OK_iff (code : GoStr) :
    (toUpperGo code = gs "OK") ↔ eqCaseInsensitive code (gs "OK") := by
  have hOK : gs "OK" = [79, 75] := by decide
  have hfold : (gs "OK").map caseFold = [111, 107] := by decide
  unfold eqCaseInsensitive toUpperGo
  rw [hfold, hOK]
  rcases code with _ | ⟨b1, _ | ⟨b2, _ | ⟨b3, rest⟩⟩⟩
  · simp
  · simp
  · have i1 := upperByte_iff b1 79 (by omega) (by omega)
    have i2 := upperByte_iff b2 75 (by omega) (by omega)
    norm_num at i1 i2
    simp [i1, i2]
  · simp

theorem sendFinish_error (reqRes doRes : Except GoErr Unit)
    (readRes : Except GoErr GoStr)
    (decodeRes : GoStr → Except GoErr GoResponse) (e : GoErr)
    (h : firstError reqRes doRes readRes decodeRes = some e) :
    sendFinish reqRes doRes readRes decodeRes = (false, none, some e) := by
  cases reqRes with
  | error e' =>
    have he : e' = e := by
      have : some e' = some e := h
      exact Option.some.inj this
    subst he
    rfl
  | ok _ =>
    cases doRes with
    | error e' =>
      have he : e' = e := Option.some.inj h
      subst he
      rfl
    | ok _ =>
      cases readRes with
      | error e' =>
        have he : e' = e := Option.some.inj h
        subst he
        rfl
      | ok buf =>
        have hh := h
        simp only [firstError] at hh
        cases hdec : decodeRes buf with
        | error e' =>
          rw [hdec] at hh
          have he : e' = e := Option.some.inj hh
          subst he
          simp only [sendFinish]
          rw [hdec]
        | ok r =>
          exfalso
          rw [hdec] at hh
          exact Option.noConfusion hh

/-!
## Claim theorems
-/

/-- C1: for every parameter map and account secret, the signature is the
§4.3 pipeline: the string-to-sign is the literal `GET`, a literal `&`,
`%2F` (the percent-encoded resource path `/`), a literal `&`, and the
canonical query string re-escaped a second time as one opaque value by the
corrected escaper; HMAC-SHA1 is taken over that string with key
`secret ++ "&"`; the raw digest is base64-encoded; and the escaping
corrections are applied to the base64 string to give the final signature. -/
theorem C1_signing_pipeline (ps : Params) (secret : GoStr) :
    ClientSignedString ps secret = signatureSpec ps secret := by
  unfold ClientSignedString signatureSpec
  have h : StringToSign ps = stringToSignSpec ps := by
    unfold StringToSign stringToSignSpec
    congr 1
  rw [h]

/-- C2 counterexample: on the map with keys `"a b"` and `"a!"` the canonical
query string is `a+b=x&a%21=y`, whose pairs are NOT in ascending byte-wise
order of the already-encoded keys (`a%21` sorts before `a+b`). -/
theorem C2_counterexample :
    SortedQueryStr [(gs "a b", gs "x"), (gs "a!", gs "y")] = gs "a+b=x&a%21=y" ∧
    strictAscB ((sortedKeys [(gs "a b", gs "x"), (gs "a!", gs "y")]).map
      QueryEscape) = false := by
  constructor <;> decide

/-- C2 amended: the pairs of the canonical query string appear in strictly
ascending byte-wise order of their RAW keys (the order of `sort.Strings`),
regardless of the insertion order of the duplicate-free parameter map; the
string is the `&`-join of the `key=value` pairs in that key order.  (For
keys made of unreserved bytes only — every protocol field name — the raw
order coincides with the encoded order.) -/
theorem C2_sorted_raw_keys (ps : Params) (h : (ps.map Prod.fst).Nodup) :
    strictAscB (sortedKeys ps) = true ∧
    (sortedKeys ps).Perm (ps.map Prod.fst) ∧
    SortedQueryStr ps = joinAmp ((sortedKeys ps).map (fun k =>
      QueryEscape k ++ [61] ++ QueryEscape (valueOf ps k))) := by
  refine ⟨?_, sortedKeys_perm ps, SortedQueryStr_join ps⟩
  exact strictAscB_of_sorted_nodup _ (sortedKeys_sorted ps)
    (((sortedKeys_perm ps).nodup_iff).mpr h)

theorem C2_sorted_raw_keys_witness :
    (([(gs "b", gs "2"), (gs "a", gs "1")] : Params).map Prod.fst).Nodup ∧
    (strictAscB (sortedKeys [(gs "b", gs "2"), (gs "a", gs "1")]) = true ∧
     (sortedKeys [(gs "b", gs "2"), (gs "a", gs "1")]).Perm
       (([(gs "b", gs "2"), (gs "a", gs "1")] : Params).map Prod.fst) ∧
     SortedQueryStr [(gs "b", gs "2"), (gs "a", gs "1")] =
       joinAmp ((sortedKeys [(gs "b", gs "2"), (gs "a", gs "1")]).map (fun k =>
         QueryEscape k ++ [61] ++
           QueryEscape (valueOf [(gs "b", gs "2"), (gs "a", gs "1")] k)))) :=
  ⟨by decide, C2_sorted_raw_keys [(gs "b", gs "2"), (gs "a", gs "1")] (by decide)⟩

/-- C3 counterexample: a value containing a space contributes `+`, not
`%20`: the canonical query string of `{k: "a b"}` is `k=a+b`, which is not
the corrected-escaper form `k=a%20b`. -/
theorem C3_counterexample :
    SortedQueryStr [(gs "k", gs "a b")] ≠
      specialEscapedQueryStr [(gs "k", gs "a b")] ∧
    SortedQueryStr [(gs "k", gs "a b")] = gs "k=a+b" := by
  constructor <;> decide

/-- C3 amended: every key and value in the canonical query string is the
result of the PLAIN generic percent-encoding `url.QueryEscape` (a space
contributes `+`); the three corrections are not applied to the individual
keys and values (they touch the canonical string only later, when the whole
string is re-escaped inside the string-to-sign). -/
theorem C3_plain_escape (ps : Params) :
    SortedQueryStr ps = joinAmp ((sortedKeys ps).map (fun k =>
      QueryEscape k ++ [61] ++ QueryEscape (valueOf ps k))) :=
  SortedQueryStr_join ps

/-- C4 helper fact folded into the claim theorem below. -/
theorem sendPrepare_signature_none (ps0 : Params) (nowT : GoTime)
    (uuid : GoStr) (hs : List PackageParam) (nums : List GoStr)
    (sn tc tp : GoStr) (h0 : lookupP ps0 (gs "Signature") = none) :
    lookupP (sendPrepare ps0 nowT uuid (hs.map PackageParam.toOp) nums sn tc tp)
      (gs "Signature") = none := by
  rw [sendPrepare_lookup, lastOv_map_packageParam]
  rw [if_neg (by decide : ¬ (gs "Signature" : GoStr) = gs "TemplateParam")]
  rw [if_neg (by decide : ¬ (gs "Signature" : GoStr) = gs "TemplateCode")]
  rw [if_neg (by decide : ¬ (gs "Signature" : GoStr) = gs "SignName")]
  rw [if_neg (by decide : ¬ (gs "Signature" : GoStr) = gs "PhoneNumbers")]
  rw [if_neg (by decide : ¬ (gs "Signature" : GoStr) = gs "RegionId")]
  rw [if_neg (by decide : ¬ (gs "Signature" : GoStr) = gs "Version")]
  rw [if_neg (by decide : ¬ (gs "Signature" : GoStr) = gs "Action")]
  rw [if_neg (by decide : ¬ (gs "Signature" : GoStr) = gs "SignatureNonce")]
  rw [if_neg (by decide : ¬ (gs "Signature" : GoStr) = gs "SignatureVersion")]
  rw [if_neg (by decide : ¬ (gs "Signature" : GoStr) = gs "SignatureMethod")]
  rw [if_neg (by decide : ¬ (gs "Signature" : GoStr) = gs "Format")]
  rw [if_neg (by decide : ¬ (gs "Signature" : GoStr) = gs "Timestamp")]
  exact h0

/-- C4: when `Send` signs, the store contains no `Signature` key (no
exported option can introduce one, the client seed does not either), and
the transmitted query string is exactly `Signature=`, the escaped
signature, `&`, and the canonical query string of the signing step. -/
theorem C4_signature_excluded (ps0 : Params) (nowT : GoTime) (uuid : GoStr)
    (hs : List PackageParam) (nums : List GoStr) (sn tc tp secret : GoStr)
    (h0 : lookupP ps0 (gs "Signature") = none) :
    lookupP (sendPrepare ps0 nowT uuid (hs.map PackageParam.toOp) nums sn tc tp)
      (gs "Signature") = none ∧
    sendRawQuery
        (sendPrepare ps0 nowT uuid (hs.map PackageParam.toOp) nums sn tc tp)
        secret =
      gs "Signature=" ++
        SMSSignedString
          (sendPrepare ps0 nowT uuid (hs.map PackageParam.toOp) nums sn tc tp)
          secret ++ [38] ++
        SortedQueryStr
          (sendPrepare ps0 nowT uuid (hs.map PackageParam.toOp) nums sn tc tp) :=
  ⟨sendPrepare_signature_none ps0 nowT uuid hs nums sn tc tp h0, rfl⟩

theorem C4_signature_excluded_witness :
    lookupP (NewClient (gs "id1")) (gs "Signature") = none ∧
    (lookupP (sendPrepare (NewClient (gs "id1")) ⟨2017, 1, 1, 0, 0, 0⟩
        (gs "nonce") (([] : List PackageParam).map PackageParam.toOp)
        [gs "13800138000"] (gs "sn") (gs "tc") (gs "tp"))
      (gs "Signature") = none ∧
    sendRawQuery
        (sendPrepare (NewClient (gs "id1")) ⟨2017, 1, 1, 0, 0, 0⟩
          (gs "nonce") (([] : List PackageParam).map PackageParam.toOp)
          [gs "13800138000"] (gs "sn") (gs "tc") (gs "tp")) (gs "secret") =
      gs "Signature=" ++
        SMSSignedString
          (sendPrepare (NewClient (gs "id1")) ⟨2017, 1, 1, 0, 0, 0⟩
            (gs "nonce") (([] : List PackageParam).map PackageParam.toOp)
            [gs "13800138000"] (gs "sn") (gs "tc") (gs "tp")) (gs "secret") ++
        [38] ++
        SortedQueryStr
          (sendPrepare (NewClient (gs "id1")) ⟨2017, 1, 1, 0, 0, 0⟩
            (gs "nonce") (([] : List PackageParam).map PackageParam.toOp)
            [gs "13800138000"] (gs "sn") (gs "tc") (gs "tp"))) :=
  ⟨by decide, C4_signature_excluded (NewClient (gs "id1")) ⟨2017, 1, 1, 0, 0, 0⟩
    (gs "nonce") [] [gs "13800138000"] (gs "sn") (gs "tc") (gs "tp")
    (gs "secret") (by decide)⟩

/-- C5: the value present at signing time for key `k` is the required
business value when `k` is one of the four required fields (they are
written after the overrides), else the last caller override for `k`, else
the step-1 default, else whatever the store already held. -/
theorem C5_required_override_default (ps0 : Params) (nowT : GoTime)
    (uuid : GoStr) (ovs : List ParamOp) (nums : List GoStr)
    (sn tc tp k : GoStr) :
    lookupP (sendPrepare ps0 nowT uuid ovs nums sn tc tp) k =
      if k = gs "TemplateParam" then some tp
      else if k = gs "TemplateCode" then some tc
      else if k = gs "SignName" then some sn
      else if k = gs "PhoneNumbers" then some (GenPhoneNumbersStr nums)
      else
        match lastOv ovs k with
        | some v => some v
        | none =>
          if k = gs "RegionId" then some (gs "cn-hangzhou")
          else if k = gs "Version" then some (gs "2017-05-25")
          else if k = gs "Action" then some (gs "SendSms")
          else if k = gs "SignatureNonce" then some uuid
          else if k = gs "SignatureVersion" then some (gs "1.0")
          else if k = gs "SignatureMethod" then some (gs "HMAC-SHA1")
          else if k = gs "Format" then some (gs "JSON")
          else if k = gs "Timestamp" then some (GenTimestamp nowT)
          else lookupP ps0 k :=
  sendPrepare_lookup ps0 nowT uuid ovs nums sn tc tp k

/-- C6: the output of the corrected escaper never contains a literal `+`,
never a literal `*`, and never the three-byte sequence `%7E`. -/
theorem C6_no_plus_star_tilde (s : GoStr) :
    (43 : Nat) ∉ SpecialURLEncode s ∧ (42 : Nat) ∉ SpecialURLEncode s ∧
    hasSubstr (SpecialURLEncode s) [37, 55, 69] = false := by
  rw [SpecialURLEncode_eq_flatten]
  refine ⟨?_, ?_, ?_⟩
  · intro hmem
    rcases List.mem_flatten.mp hmem with ⟨B, hB, hxB⟩
    rcases List.mem_map.mp hB with ⟨b, _, rfl⟩
    exact not43_specialEncByte b hxB
  · intro hmem
    rcases List.mem_flatten.mp hmem with ⟨B, hB, hxB⟩
    rcases List.mem_map.mp hB with ⟨b, _, rfl⟩
    exact not42_specialEncByte b hxB
  · exact pct7E_not_in_flatten _ (fun B hB => by
      rcases List.mem_map.mp hB with ⟨b, _, rfl⟩
      exact specialEncByte_blocks b)

set_option maxRecDepth 1000000 in
/-- C7 counterexample: already on the empty parameter map and secret `x`
the two `SignedString` variants return different strings (the extra
generic escape double-encodes the base64 padding `=`). -/
theorem C7_counterexample :
    SMSSignedString [] (gs "x") ≠ ClientSignedString [] (gs "x") := by
  decide

/-- C7 amended: the two signing variants NEVER agree: the base64 encoding
of the 20-byte HMAC-SHA1 digest always ends in `=`, which the
correction-only variant encodes as `%3D` while the variant with the extra
generic pass produces `%253D`. -/
theorem C7_variants_never_agree (ps : Params) (secret : GoStr) :
    SMSSignedString ps secret ≠ ClientSignedString ps secret :=
  signedString_variants_differ ps secret

/-- C8: after a successful transport and decode, `Send` succeeds iff the
decoded code case-insensitively equals `OK`; a non-`OK` code yields
`(false, the decoded response unchanged, no error)`. -/
theorem C8_success_iff_code_ok (r : GoResponse) (hA : isASCII r.code) :
    ((classifyResponse r).1 = true ↔ eqCaseInsensitive r.code (gs "OK")) ∧
    ((classifyResponse r).1 = false →
      classifyResponse r = (false, some r, none)) := by
  unfold classifyResponse
  by_cases h : toUpperGo r.code = gs "OK"
  · rw [if_neg (by simp [h])]
    refine ⟨?_, ?_⟩
    · simp only [true_iff]
      exact (toUpper_OK_iff r.code).mp h
    · intro hf
      cases hf
  · rw [if_pos (by simp [h])]
    refine ⟨?_, fun _ => rfl⟩
    constructor
    · intro hf
      cases hf
    · intro hci
      exact absurd ((toUpper_OK_iff r.code).mpr hci) h

theorem C8_success_iff_code_ok_witness :
    isASCII (GoResponse.code ⟨gs "rid", gs "SignatureDoesNotMatch",
      gs "msg", gs "biz"⟩) ∧
    (((classifyResponse ⟨gs "rid", gs "SignatureDoesNotMatch", gs "msg",
        gs "biz"⟩).1 = true ↔
      eqCaseInsensitive (GoResponse.code ⟨gs "rid",
        gs "SignatureDoesNotMatch", gs "msg", gs "biz"⟩) (gs "OK")) ∧
    ((classifyResponse ⟨gs "rid", gs "SignatureDoesNotMatch", gs "msg",
        gs "biz"⟩).1 = false →
      classifyResponse ⟨gs "rid", gs "SignatureDoesNotMatch", gs "msg",
        gs "biz"⟩ =
        (false, some ⟨gs "rid", gs "SignatureDoesNotMatch", gs "msg",
          gs "biz"⟩, none))) :=
  ⟨by decide, C8_success_iff_code_ok
    ⟨gs "rid", gs "SignatureDoesNotMatch", gs "msg", gs "biz"⟩ (by decide)⟩

/-- C9: when request construction, the transport `GET`, the body read or
the JSON decode fails, `Send` aborts with that first error, no response
value and `success = false`. -/
theorem C9_errors_abort (reqRes doRes : Except GoErr Unit)
    (readRes : Except GoErr GoStr)
    (decodeRes : GoStr → Except GoErr GoResponse) (e : GoErr)
    (h : firstError reqRes doRes readRes decodeRes = some e) :
    sendFinish reqRes doRes readRes decodeRes = (false, none, some e) :=
  sendFinish_error reqRes doRes readRes decodeRes e h

theorem C9_errors_abort_witness :
    firstError (Except.error (gs "dial tcp: connection refused"))
      (Except.ok ()) (Except.ok [])
      (fun _ => Except.ok ⟨[], [], [], []⟩) =
      some (gs "dial tcp: connection refused") ∧
    sendFinish (Except.error (gs "dial tcp: connection refused"))
      (Except.ok ()) (Except.ok [])
      (fun _ => Except.ok ⟨[], [], [], []⟩) =
      (false, none, some (gs "dial tcp: connection refused")) :=
  ⟨rfl, C9_errors_abort (Except.error (gs "dial tcp: connection refused"))
    (Except.ok ()) (Except.ok []) (fun _ => Except.ok ⟨[], [], [], []⟩)
    (gs "dial tcp: connection refused") rfl⟩

/-- C10 counterexample: for the UTC year 10000 the generated timestamp has
a five-digit year, so it does not have the exact `YYYY-MM-DDThh:mm:ssZ`
shape the claim states for EVERY time value. -/
theorem C10_counterexample :
    GenTimestamp ⟨10000, 1, 2, 3, 4, 5⟩ ≠ specTimestamp ⟨10000, 1, 2, 3, 4, 5⟩ := by
  decide

/-- C10 amended: for every time value whose UTC components are in range
(year below 10000, the other components below 100 — true of every real
clock reading), the generated timestamp is exactly `YYYY-MM-DDThh:mm:ssZ`:
zero-padded fixed-width fields, no fractional seconds, literal `Z`. -/
theorem C10_timestamp_format (t : GoTime) (hy : t.year < 10000)
    (hmo : t.month < 100) (hd : t.day < 100) (hh : t.hour < 100)
    (hmi : t.minute < 100) (hs : t.second < 100) :
    GenTimestamp t = specTimestamp t :=
  genTimestamp_spec t hy hmo hd hh hmi hs

theorem C10_timestamp_format_witness :
    ((2017 : Nat) < 10000 ∧ (5 : Nat) < 100 ∧ (25 : Nat) < 100 ∧
      (9 : Nat) < 100 ∧ (8 : Nat) < 100 ∧ (7 : Nat) < 100) ∧
    GenTimestamp ⟨2017, 5, 25, 9, 8, 7⟩ = specTimestamp ⟨2017, 5, 25, 9, 8, 7⟩ :=
  ⟨by decide, C10_timestamp_format ⟨2017, 5, 25, 9, 8, 7⟩ (by decide)
    (by decide) (by decide) (by decide) (by decide) (by decide)⟩
